import Mathlib

/-!
Shallow embedding of the procedure-to-route compiler and invoker of
`src/procedure-route-mapper/fastify-module.ts` (the final variant of the
subsystem; the drafts in `src/unnamed/part_000` are earlier revisions of the
same functions).  JavaScript runtime values are modelled by the inductive
type `Val`; fallible JavaScript code (thrown exceptions) is modelled with
`Except String`.
-/

/-- Model of a JavaScript runtime value as far as this subsystem observes it:
`undefined`, `null`, booleans, numbers (modelled as integers; no float
behaviour is relied on by the code), strings, arrays and plain objects
(ordered field lists). -/
inductive Val where
  | undefined : Val
  | null : Val
  | vbool : Bool → Val
  | vnum : Int → Val
  | vstr : String → Val
  | varr : List Val → Val
  | vobj : List (String × Val) → Val
deriving Repr

/-- JavaScript truthiness: `undefined`, `null`, `false`, `0` and `""` are
falsy; every array and object is truthy. -/
def truthy : Val → Bool
  | .undefined => false
  | .null => false
  | .vbool b => b
  | .vnum n => n != 0
  | .vstr s => s != ""
  | .varr _ => true
  | .vobj _ => true

/-- Field lookup on an object literal: first binding of the key wins
(JavaScript objects cannot carry a key twice). -/
def lookupField : List (String × Val) → String → Val
  | [], _ => .undefined
  | (k, v) :: rest, key => if k == key then v else lookupField rest key

/-- Property access `v[key]` as the embedded code uses it: objects yield the
field (or `undefined`), every other value yields `undefined`.  Accesses on
`null`/`undefined` are only performed behind `?.` in the source, which
short-circuits to `undefined`, so no exception case is needed here. -/
def getProp (v : Val) (key : String) : Val :=
  match v with
  | .vobj fields => lookupField fields key
  | _ => .undefined

/-- Index access `v[0]` for a value already known not to be
`null`/`undefined` (arrays: first element or `undefined`; objects: field
`"0"`; anything else: `undefined`). -/
def idx0 : Val → Val
  | .varr [] => .undefined
  | .varr (x :: _) => x
  | .vobj fields => lookupField fields "0"
  | _ => .undefined

/-- Optional-chained index access `v?.[0]`. -/
def optIdx0 : Val → Val
  | .undefined => .undefined
  | .null => .undefined
  | v => idx0 v

/-- Array index `v[i]` (out-of-range yields `undefined`). -/
def getIdx (v : Val) (i : Nat) : Val :=
  match v with
  | .varr xs => xs.getD i .undefined
  | _ => .undefined

/-- Escape of one character inside a JSON string literal. -/
def jsonEscapeChar (c : Char) : String :=
  if c = '"' then "\\\""
  else if c = '\\' then "\\\\"
  else if c = '\n' then "\\n"
  else if c = '\t' then "\\t"
  else if c = '\r' then "\\r"
  else String.singleton c

/-- A JSON string literal. -/
def jsonQuote (s : String) : String :=
  "\"" ++ String.join (s.toList.map jsonEscapeChar) ++ "\""

mutual
/-- Model of `JSON.stringify`: `none` models the JavaScript result
`undefined` (stringifying `undefined` itself); inside arrays an undefined
element renders as `null`, inside objects an undefined field is omitted. -/
def jsonStringify : Val → Option String
  | .undefined => none
  | .null => some "null"
  | .vbool b => some (cond b "true" "false")
  | .vnum n => some (toString n)
  | .vstr s => some (jsonQuote s)
  | .varr xs => some ("[" ++ String.intercalate "," (jsonArrElems xs) ++ "]")
  | .vobj fs => some ("\x7b" ++ String.intercalate "," (jsonObjFields fs) ++ "\x7d")

def jsonArrElems : List Val → List String
  | [] => []
  | v :: t => ((jsonStringify v).getD "null") :: jsonArrElems t

def jsonObjFields : List (String × Val) → List String
  | [] => []
  | (k, v) :: t =>
    match jsonStringify v with
    | none => jsonObjFields t
    | some s => (jsonQuote k ++ ":" ++ s) :: jsonObjFields t
end

/-- Argument normalization performed by `Procedures.execute`
(fastify-module.ts lines 535-543): `undefined`/`null` become the `null`
argument, arrays and objects are serialized with `JSON.stringify`, every
other (scalar) value is passed unchanged. -/
def normalizeArg (v : Val) : Val :=
  match v with
  | .undefined => .null
  | .null => .null
  | .varr xs => .vstr ((jsonStringify (.varr xs)).getD "")
  | .vobj fs => .vstr ((jsonStringify (.vobj fs)).getD "")
  | other => other

/- ### Route derivation (`parseProcedureName`, fastify-module.ts 209-220) -/

/-- `String.prototype.replace` with a plain-string pattern: replaces only the
first occurrence (here always with the empty string, as the source does with
the configured procedure-name prefix). -/
def removeFirstOccurrence : List Char → List Char → List Char
  | [], _ => []
  | c :: cs, pat =>
    if pat.isPrefixOf (c :: cs) then (c :: cs).drop pat.length
    else c :: removeFirstOccurrence cs pat

/-- JavaScript `\w` character class. -/
def isWordChar (c : Char) : Bool :=
  ('a' ≤ c && c ≤ 'z') || ('A' ≤ c && c ≤ 'Z') || ('0' ≤ c && c ≤ '9') || c = '_'

/-- Longest run of `\w` characters at the head of the list, with the rest. -/
def takeWordRun : List Char → List Char × List Char
  | [] => ([], [])
  | c :: cs =>
    if isWordChar c then (c :: (takeWordRun cs).1, (takeWordRun cs).2)
    else ([], c :: cs)

/-- Global regex replacement `/\.(\w+)\./g → ':$1'`: a dot, a nonempty word
run, a dot, becomes `:` followed by the word run; scanning resumes after the
consumed closing dot, and on a failed match the scan advances one character.
Recursion is driven by a fuel counter (every step strictly shrinks the list,
so fuel `l.length` is always enough). -/
def dotSegmentsGo : Nat → List Char → List Char
  | 0, l => l
  | _ + 1, [] => []
  | fuel + 1, c :: rest =>
    if c = '.' then
      match takeWordRun rest with
      | (w, r) =>
        if w ≠ [] ∧ r.head? = some '.' then
          ':' :: (w ++ dotSegmentsGo fuel r.tail)
        else
          '.' :: dotSegmentsGo fuel rest
    else
      c :: dotSegmentsGo fuel rest

def dotSegments (l : List Char) : List Char := dotSegmentsGo l.length l

/-- `String.prototype.split` with a one-character separator (the code splits
on `'_'`): empty segments between consecutive separators are kept, and the
empty string splits to `[""]`. -/
def splitOnChar (sep : Char) : List Char → List (List Char)
  | [] => [[]]
  | c :: cs =>
    let r := splitOnChar sep cs
    if c = sep then [] :: r else (c :: r.headD []) :: r.tail

/-- `Array.prototype.join` with a separator. -/
def joinSep (sep : List Char) : List (List Char) → List Char
  | [] => []
  | [x] => x
  | x :: xs => x ++ sep ++ joinSep sep xs

/-- Global replacement of a plain (nonempty) pattern, leftmost first,
non-overlapping — the semantics of `String.prototype.replace` with a
`/…/g` regex whose pattern is a literal string.  Fuel-driven structural
recursion (fuel `l.length` always suffices). -/
def replaceAllGo (pat rep : List Char) : Nat → List Char → List Char
  | 0, l => l
  | _ + 1, [] => []
  | fuel + 1, c :: cs =>
    if pat.isPrefixOf (c :: cs) then
      rep ++ replaceAllGo pat rep fuel ((c :: cs).drop pat.length)
    else
      c :: replaceAllGo pat rep fuel cs

def replaceAllL (l pat rep : List Char) : List Char := replaceAllGo pat rep l.length l

/-- `parseProcedureName` (fastify-module.ts 209-220): strip the first
occurrence of the configured prefix, split on `_`, uppercase the first
segment as the HTTP method, rejoin the rest with `_`, then globally replace
`__` by `/`, `_` by `-` and `.name.` by `:name`, and prepend `/`. -/
def parseProcedureName (procedureName : String) (pfx : String) : String × String :=
  let nameWithoutPfx := removeFirstOccurrence procedureName.toList pfx.toList
  let parts := splitOnChar '_' nameWithoutPfx
  let methodPart := parts.headD []
  let urlParts := parts.tail
  let url :=
    dotSegments
      (replaceAllL (replaceAllL (joinSep ['_'] urlParts) "__".toList "/".toList)
        "_".toList "-".toList)
  (String.mk (methodPart.map Char.toUpper), String.mk ('/' :: url))

/- ### Procedure metadata (comment-parser tags) and compile-time checks -/

/-- One parsed doc-comment annotation (`comment-parser`'s `Spec` as the code
reads it): `@tag {type} name description`. -/
structure Tag where
  tag : String
  type : String
  name : String
  description : String
deriving Repr, DecidableEq

/-- A catalog entry: procedure name, parsed metadata tags, declared
parameter names in declaration order. -/
structure Procedure where
  name : String
  metadata : List Tag
  parameters : List String
deriving Repr

/-- Leftmost match of the regex `/(\w+)<(\w+)>/` used to resolve
`name<alias>`: returns the two capture groups (the scan advances one
character after a failed match attempt, as a regex engine does). -/
def matchAliasL : List Char → Option (List Char × List Char)
  | [] => none
  | c :: cs =>
    match takeWordRun (c :: cs) with
    | (w, r) =>
      match w, r with
      | _ :: _, '<' :: r2 =>
        (match takeWordRun r2 with
         | (w2, r3) =>
           match w2, r3 with
           | _ :: _, '>' :: _ => some (w, w2)
           | _, _ => matchAliasL cs)
      | _, _ => matchAliasL cs

/-- `(name, alias)` resolution from a `param` tag's `name` field: the
`name<alias>` form when the regex matches, otherwise the raw name serves as
both. -/
def resolveNameAlias (tagName : String) : String × String :=
  match matchAliasL tagName.toList with
  | some (w1, w2) => (String.mk w1, String.mk w2)
  | none => (tagName, tagName)

structure ParamMeta where
  name : String
  aliasName : String
  getFrom : String
  description : String
deriving Repr, DecidableEq

/-- Effectful `Array.prototype.map` over a fallible body: the first thrown
exception aborts the whole loop. -/
def mapExcept {α β : Type} (f : α → Except String β) : List α → Except String (List β)
  | [] => .ok []
  | a :: l => do
    let x ← f a
    let xs ← mapExcept f l
    .ok (x :: xs)

/-- Effectful fold (the `for … of` loops and `reduce` of the source): the
first thrown exception aborts the whole loop. -/
def foldExcept {σ α : Type} (f : σ → α → Except String σ) : σ → List α → Except String σ
  | acc, [] => .ok acc
  | acc, a :: l => do
    let acc' ← f acc a
    foldExcept f acc' l

def allowedGetFromValues : List String :=
  ["querystring", "params", "body", "headers", "user", "request"]

/-- `getParamMetadata` (fastify-module.ts 364-385): fold the `param` tags
into a name-keyed binding map, rejecting a source location outside the
allowed set.  A later tag for the same name overwrites an earlier one, which
the prepend-plus-first-match representation realizes. -/
def getParamStep (acc : List (String × ParamMeta)) (tag : Tag) :
    Except String (List (String × ParamMeta)) :=
  if tag.tag == "param" then
    let na := resolveNameAlias tag.name
    if allowedGetFromValues.contains tag.type then
      .ok ((na.1, ⟨na.1, na.2, tag.type, tag.description⟩) :: acc)
    else
      .error ("Invalid getFrom value: " ++ tag.type ++ " for parameter: " ++ na.1)
  else .ok acc

def getParamMetadata (metadata : List Tag) : Except String (List (String × ParamMeta)) :=
  foldExcept getParamStep [] metadata

def pmLookup (pm : List (String × ParamMeta)) (key : String) : Option ParamMeta :=
  match pm with
  | [] => none
  | (k, v) :: rest => if k == key then some v else pmLookup rest key

/-- `key in obj` / truthiness of `obj[key]` as the code uses it on its
accumulator objects: whether an association list carries the key. -/
def keyMem {β : Type} (l : List (String × β)) (key : String) : Bool :=
  match l with
  | [] => false
  | (k, _) :: rest => k == key || keyMem rest key

theorem keyMem_append {β : Type} (l1 l2 : List (String × β)) (key : String) :
    keyMem (l1 ++ l2) key = (keyMem l1 key || keyMem l2 key) := by
  induction l1 with
  | nil => simp [keyMem]
  | cons a t ih =>
    cases a with
    | mk k v => simp [keyMem, ih, Bool.or_assoc]

/-- Whitespace trim of both ends (`String.prototype.trim`). -/
def isSpaceChar (c : Char) : Bool := c = ' ' || c = '\t' || c = '\n' || c = '\r'

def trimL (l : List Char) : List Char :=
  ((l.dropWhile isSpaceChar).reverse.dropWhile isSpaceChar).reverse

/-- `s.split(',').map(x => x.trim())`. -/
def splitTrim (s : String) : List String :=
  (splitOnChar ',' s.toList).map (fun l => String.mk (trimL l))

/-- `generateGuards` (fastify-module.ts 346-362): each `guard` tag is
resolved in the supplied guard-factory map (unresolved names are fatal,
naming procedure and guard) and applied to the comma-separated, trimmed
parameters of its description (an empty description yields no parameters). -/
def generateGuards {γ : Type} (procName : String) (metadata : List Tag)
    (guardMap : String → Option (List String → γ)) : Except String (List γ) :=
  mapExcept (fun g =>
    match guardMap g.name with
    | none => .error ("Guard not found: " ++ g.name ++ " in procedure: " ++ procName)
    | some factory =>
      let params := if g.description != "" then splitTrim g.description else []
      .ok (factory params))
    (metadata.filter (fun t => t.tag == "guard"))

def allowedHookTypes : List String :=
  ["onRequest", "preParsing", "preValidation", "preHandler", "preSerialization",
   "onSend", "onResponse", "onTimeout", "onError"]

/-- One iteration of the `@hooks` loop (fastify-module.ts 126-146): reject a
tag with an empty phase or function list, a phase already declared, a phase
outside `allowedHookTypes`, or a function name missing from the hook
registry — every message names the procedure. -/
def processHookTag {φ : Type} (procName : String) (hooks : String → Option φ)
    (acc : List (String × List φ)) (hookTag : Tag) :
    Except String (List (String × List φ)) :=
  let hookType := hookTag.name
  let functionsString := hookTag.description
  if hookType = "" ∨ functionsString = "" then
    .error ("Invalid @hooks tag format in procedure " ++ procName)
  else if keyMem acc hookType then
    .error ("Multiple declarations of the same hookType '" ++ hookType ++
      "' in procedure " ++ procName)
  else if ¬ allowedHookTypes.contains hookType then
    .error ("Invalid hookType '" ++ hookType ++ "' in procedure " ++ procName ++
      ". Allowed hook types are: " ++ String.intercalate ", " allowedHookTypes)
  else do
    let fns ← mapExcept (fun fnName =>
      match hooks fnName with
      | none =>
        Except.error ("Hook function '" ++ fnName ++
          "' not found in hooks module for procedure " ++ procName)
      | some f => Except.ok f) (splitTrim functionsString)
    .ok (acc ++ [(hookType, fns)])

def processRouteHooks {φ : Type} (procName : String) (metadata : List Tag)
    (hooks : String → Option φ) : Except String (List (String × List φ)) :=
  foldExcept (processHookTag procName hooks) [] (metadata.filter (fun t => t.tag == "hooks"))

/-- The per-section request schema assembled by `generateZodSchema`:
each section is `none` until a first parameter targets it, then an
alias-keyed object schema grown by `extend` (same alias overwrites). -/
structure RouteSchema (σ : Type) where
  querystring : Option (List (String × σ))
  params : Option (List (String × σ))
  body : Option (List (String × σ))
  headers : Option (List (String × σ))
deriving Repr

def emptyRouteSchema {σ : Type} : RouteSchema σ := ⟨none, none, none, none⟩

/-- `z.object(...).extend({[alias]: part})`: an existing alias is replaced in
place, a new one is appended. -/
def upsertField {σ : Type} (fields : List (String × σ)) (key : String) (v : σ) :
    List (String × σ) :=
  if keyMem fields key then
    fields.map (fun kv => if kv.1 == key then (kv.1, v) else kv)
  else fields ++ [(key, v)]

/-- One `param` tag of `generateZodSchema` (fastify-module.ts 230-287): the
description is compiled by the schema-expression evaluator `parseFn` (the
`node:vm` zod sandbox, abstracted as a function that may fail); a failure is
wrapped naming parameter and procedure; the tag's `type` routes the compiled
node into a section, `user`/`request` are no-ops, anything else is fatal. -/
def addSchemaPart {σ : Type} (procName : String) (parseFn : String → Except String σ)
    (sch : RouteSchema σ) (tag : Tag) : Except String (RouteSchema σ) :=
  if tag.tag == "param" then
    let na := resolveNameAlias tag.name
    match parseFn tag.description with
    | .error msg =>
      .error ("Error parsing schema for parameter " ++ na.1 ++ " in procedure " ++
        procName ++ ": " ++ msg)
    | .ok part =>
      match tag.type with
      | "querystring" =>
        .ok { sch with querystring := some (upsertField (sch.querystring.getD []) na.2 part) }
      | "body" =>
        .ok { sch with body := some (upsertField (sch.body.getD []) na.2 part) }
      | "params" =>
        .ok { sch with params := some (upsertField (sch.params.getD []) na.2 part) }
      | "headers" =>
        .ok { sch with headers := some (upsertField (sch.headers.getD []) na.2 part) }
      | "user" => .ok sch
      | "request" => .ok sch
      | _ =>
        .error ("Unknown parameter type: " ++ tag.type ++ " for parameter: " ++ tag.name)
  else .ok sch

def generateZodSchema {σ : Type} (procName : String) (metadata : List Tag)
    (parseFn : String → Except String σ) : Except String (RouteSchema σ) :=
  foldExcept (addSchemaPart procName parseFn) emptyRouteSchema metadata

/-- The compiled route of one procedure. -/
structure RouteSpec (φ γ σ : Type) where
  method : String
  url : String
  guards : List γ
  routeHooks : List (String × List φ)
  schema : RouteSchema σ
deriving Repr

/-- The body of the per-procedure registration loop
(fastify-module.ts 117-201): hook tags, route derivation, request schema,
guards, and the (unused at compile time) parameter-binding map, in source
order; the first failure aborts the compilation of the procedure. -/
def compileProcedureInner {φ γ σ : Type} (pfx : String)
    (guardMap : String → Option (List String → γ)) (hooks : String → Option φ)
    (parseFn : String → Except String σ) (procedure : Procedure) :
    Except String (RouteSpec φ γ σ) := do
  let routeHooks ← processRouteHooks procedure.name procedure.metadata hooks
  let mu := parseProcedureName procedure.name pfx
  let schema ← generateZodSchema procedure.name procedure.metadata parseFn
  let guards ← generateGuards procedure.name procedure.metadata guardMap
  let _pm ← getParamMetadata procedure.metadata
  .ok ⟨mu.1, mu.2, guards, routeHooks, schema⟩

/-- The surrounding `try`/`catch` (fastify-module.ts 202-205): every
compile-time failure is rethrown prefixed with the procedure name. -/
def compileProcedure {φ γ σ : Type} (pfx : String)
    (guardMap : String → Option (List String → γ)) (hooks : String → Option φ)
    (parseFn : String → Except String σ) (procedure : Procedure) :
    Except String (RouteSpec φ γ σ) :=
  match compileProcedureInner pfx guardMap hooks parseFn procedure with
  | .error e => .error ("Error in procedure " ++ procedure.name ++ ": " ++ e)
  | .ok r => .ok r

/- ### Runtime: argument binding (`Procedures.execute`, fastify-module.ts 496-547) -/

/-- The request fields the invoker reads: query/path/body/header maps, the
auth-context `user` object (possibly `undefined`), and the per-request
side-channel map (`request.requestData`, whose `Map.get` yields `undefined`
for a missing key). -/
structure Req where
  query : List (String × Val)
  pathParams : List (String × Val)
  body : List (String × Val)
  headers : List (String × Val)
  user : Val
  requestData : List (String × Val)
deriving Repr

/-- Optional-chained property access `v?.[key]`. -/
def optProp (v : Val) (key : String) : Val :=
  match v with
  | .undefined => .undefined
  | .null => .undefined
  | u => getProp u key

/-- The argument-resolution part of `Procedures.execute`
(fastify-module.ts 502-544): rebuild the binding map from the metadata, then
map over the declared parameters in catalog order, extracting each value
from the request section selected by its binding and normalizing it; a
parameter with no binding raises, naming parameter and procedure. -/
def resolveProcedureArgs (proc : Procedure) (req : Req) : Except String (List Val) := do
  let pm ← getParamMetadata proc.metadata
  mapExcept (fun param =>
    match pmLookup pm param with
    | none =>
      Except.error ("Parameter metadata not found for parameter: " ++ param ++
        " in procedure: " ++ proc.name)
    | some paramMeta => do
      let value ← (match paramMeta.getFrom with
        | "querystring" => Except.ok (lookupField req.query paramMeta.aliasName)
        | "params" => Except.ok (lookupField req.pathParams paramMeta.aliasName)
        | "body" => Except.ok (lookupField req.body paramMeta.aliasName)
        | "headers" => Except.ok (lookupField req.headers paramMeta.aliasName)
        | "user" => Except.ok (optProp req.user paramMeta.aliasName)
        | "request" => Except.ok (lookupField req.requestData paramMeta.aliasName)
        | other =>
          Except.error ("Unknown getFrom value: " ++ other ++ " for parameter: " ++
            param ++ " in procedure: " ++ proc.name))
      Except.ok (normalizeArg value)) proc.parameters

/- ### Runtime: result-set demultiplexing -/

/-- The sentinel marker field name. -/
def resultMarkerKey : String := "#RESULT#"

/-- The tail of `Procedures.execute` (fastify-module.ts 549-559) applied to
the database response's first component: a non-array response is returned
with a `null` envelope; otherwise the trailing call-status element is
popped, and if the first row of the first remaining result set has a truthy
`#RESULT#` field that result set is consumed as the envelope. -/
def executeDemux (dbResults : Val) : Val × Val :=
  match dbResults with
  | .varr elems =>
    let results := elems.dropLast
    if truthy (optProp (optIdx0 (results.headD .undefined)) resultMarkerKey) then
      (.varr results.tail, optIdx0 (results.headD .undefined))
    else
      (.varr results, .null)
  | other => (other, .null)

/-- `resultMetadata?.schema?.split(',')` (fastify-module.ts 564): `none`
models an absent descriptor list (`undefined`); a non-string `schema` field
on the envelope would make `.split` throw. -/
def envelopeSchema (meta : Val) : Except String (Option (List String)) :=
  match meta with
  | .undefined => .ok none
  | .null => .ok none
  | m =>
    match getProp m "schema" with
    | .undefined => .ok none
    | .null => .ok none
    | .vstr s => .ok (some ((splitOnChar ',' s.toList).map String.mk))
    | _ => .error "TypeError: resultMetadata.schema.split is not a function"

/-- The `{error, success, message}` failure payload
(fastify-module.ts 181-185 and 567-571). -/
def errObjOf (meta : Val) : Val :=
  .vobj [("error", .vbool (truthy (getProp meta "error"))),
         ("success", .vbool (truthy (getProp meta "success"))),
         ("message", getProp meta "message")]

/-- The positional shape application (fastify-module.ts 578-584): descriptor
`i` equal to `"object"` takes `results[i][0]` (throwing if `results[i]` is
absent), any other descriptor keeps `results[i]`. -/
def shapeResults (resultsV : Val) : List String → Nat → Except String (List Val)
  | [], _ => .ok []
  | d :: ds, i => do
    let v ← (if d = "object" then
        match getIdx resultsV i with
        | .undefined => Except.error "TypeError: Cannot read properties of undefined (reading '0')"
        | .null => Except.error "TypeError: Cannot read properties of null (reading '0')"
        | x => Except.ok (idx0 x)
      else Except.ok (getIdx resultsV i))
    let rest ← shapeResults resultsV ds (i + 1)
    .ok (v :: rest)

/-- The result-shaping continuation of `Procedures.executef`
(fastify-module.ts 562-592), applied to `execute`'s `[results,
resultMetadata]` pair.  With no descriptor list it reads
`resultMetadata.error` (throwing on a `null` envelope) and returns either
the bare failure object or the bare result-set array — not an
`[results, resultMetadata]` pair; with a descriptor list it returns the
shaped payload paired with the envelope. -/
def executefShape (resultsV meta : Val) : Except String Val := do
  let schemaOpt ← envelopeSchema meta
  match schemaOpt with
  | none =>
    match meta with
    | .undefined => .error "TypeError: Cannot read properties of undefined (reading 'error')"
    | .null => .error "TypeError: Cannot read properties of null (reading 'error')"
    | m =>
      if truthy (getProp m "error") then .ok (errObjOf m)
      else .ok resultsV
  | some descs => do
    let prepared ← shapeResults resultsV descs 0
    if prepared.length = 1 then
      .ok (.varr [prepared.headD .undefined, meta])
    else
      .ok (.varr [.varr prepared, meta])

/-- `Procedures.executef` from the database response onward. -/
def executefModel (dbResults : Val) : Except String Val :=
  executefShape (executeDemux dbResults).1 (executeDemux dbResults).2

/-- Array destructuring `const [a, b] = v`: arrays yield their first two
elements (missing ones `undefined`); strings are iterable character-wise;
every other value is not iterable and throws. -/
def destructurePair (v : Val) : Except String (Val × Val) :=
  match v with
  | .varr xs => .ok (xs.getD 0 .undefined, xs.getD 1 .undefined)
  | .vstr s =>
    .ok ((s.toList.headD ' ' |> fun c => if s.isEmpty then Val.undefined else .vstr (String.singleton c)),
      match s.toList with
      | _ :: c2 :: _ => .vstr (String.singleton c2)
      | _ => .undefined)
  | _ => .error "TypeError: object is not iterable"

/-- `reply.status(resultMetadata.status ? resultMetadata.status :
resultMetadata.error ? 400 : 200)` (fastify-module.ts 178): the envelope's
`status` is tested for truthiness, not presence; a truthy non-numeric
status is outside the modelled domain. -/
def replyStatus (meta : Val) : Except String Int :=
  let sv := getProp meta "status"
  if truthy sv then
    match sv with
    | .vnum n => .ok n
    | _ => .error "invalid status value"
  else
    .ok (if truthy (getProp meta "error") then 400 else 200)

/-- The route handler body after `executef` resolves
(fastify-module.ts 172-188): destructure `[results, resultMetadata]`, return
`results` with the framework's default status 200 when the envelope is
falsy, otherwise set the reply status and return either the failure object
or `results`. -/
def handlerCore (v : Val) : Except String (Int × Val) := do
  let rm ← destructurePair v
  if ¬ truthy rm.2 then
    .ok (200, rm.1)
  else do
    let st ← replyStatus rm.2
    if truthy (getProp rm.2 "error") then
      .ok (st, errObjOf rm.2)
    else
      .ok (st, rm.1)

/-- The full invocation pipeline from the database response to the HTTP
reply `(status, payload)`: `executef`'s shaping followed by the handler,
whose `catch` (fastify-module.ts 189-193) rethrows any failure prefixed
with the procedure name. -/
def invoke (procName : String) (dbResults : Val) : Except String (Int × Val) :=
  match executefModel dbResults >>= handlerCore with
  | .error e => .error ("Error in handler for procedure " ++ procName ++ ": " ++ e)
  | .ok r => .ok r

/- ### Custom-validations loader (fastify-module.ts 434-486) -/

/-- A module export as the loader observes it: whether the export is a
function, and whether calling it returns a zod schema (the self-test
`validationFunction() instanceof z.ZodType`). -/
structure VExport where
  isFunction : Bool
  returnsZod : Bool
deriving Repr, DecidableEq

/-- One module file of the custom-validations directory: its module name
(file base name) and its default/named exports. -/
structure VModule where
  moduleName : String
  defaultExport : Option VExport
  namedExports : List (String × VExport)
deriving Repr

/-- Registration of one validator factory (fastify-module.ts 447-477):
duplicate names, non-function exports and factories whose self-test does not
return a zod schema are fatal. -/
def registerValidation (validations : List (String × VExport)) (name : String)
    (atModule : String) (vexp : VExport) : Except String (List (String × VExport)) :=
  if keyMem validations name then
    .error ("Duplicate validation function name: " ++ name ++ atModule)
  else if ¬ vexp.isFunction then
    .error ("Validation module " ++ name ++ atModule ++ " is not a function")
  else if ¬ vexp.returnsZod then
    .error ("Validation function " ++ name ++ atModule ++ " does not return a Zod schema")
  else
    .ok (validations ++ [(name, vexp)])

/-- Processing of one module file: the default export registers under the
module name, otherwise every named export registers under its own name. -/
def processValidationModule (validations : List (String × VExport)) (m : VModule) :
    Except String (List (String × VExport)) :=
  match m.defaultExport with
  | some d => registerValidation validations m.moduleName "" d
  | none =>
    foldExcept
      (fun acc kv => registerValidation acc kv.1 ("@" ++ m.moduleName) kv.2)
      validations m.namedExports

/-- `loadCustomValidations` (fastify-module.ts 434-486).  The source's
`return validations;` sits INSIDE the `for await` loop (line 479), so after
the first file is processed successfully the function returns and every
later file is ignored; the loop body for files after the first is dead code
(`_rest` is never consumed).  An error while processing the first file is
rethrown wrapped with the file path. -/
def loadCustomValidations : List VModule → Except String (List (String × VExport))
  | [] => .ok []
  | m :: _rest =>
    match processValidationModule [] m with
    | .ok validations => .ok validations
    | .error e =>
      .error ("Error loading validation module from file " ++ m.moduleName ++ ": " ++ e)

/- ### Generic lemmas about the embedded effect helpers -/

theorem mapExcept_cons {α β : Type} (f : α → Except String β) (a : α) (l : List α) :
    mapExcept f (a :: l) =
      (f a >>= fun x => mapExcept f l >>= fun xs => Except.ok (x :: xs)) := rfl

theorem foldExcept_cons {σ α : Type} (f : σ → α → Except String σ) (acc : σ) (a : α)
    (l : List α) :
    foldExcept f acc (a :: l) = (f acc a >>= fun acc' => foldExcept f acc' l) := rfl

theorem foldExcept_append {σ α : Type} (f : σ → α → Except String σ) (acc : σ)
    (l1 l2 : List α) :
    foldExcept f acc (l1 ++ l2) =
      (foldExcept f acc l1 >>= fun mid => foldExcept f mid l2) := by
  induction l1 generalizing acc with
  | nil => rfl
  | cons a t ih =>
    simp only [List.cons_append, foldExcept_cons]
    cases f acc a with
    | error e => rfl
    | ok acc' => simpa using ih acc'

theorem except_isOk_ok {α : Type} (a : α) : (Except.ok a : Except String α).isOk = true := rfl

theorem except_isOk_error {α : Type} (e : String) :
    (Except.error e : Except String α).isOk = false := rfl

theorem except_ok_bind {α β : Type} (a : α) (f : α → Except String β) :
    (Except.ok a >>= f) = f a := rfl

theorem except_error_bind {α β : Type} (e : String) (f : α → Except String β) :
    ((Except.error e : Except String α) >>= f) = .error e := rfl

/-- A fallible map over a list containing an element on which the body
throws cannot succeed. -/
theorem mapExcept_isOk_false_of_mem {α β : Type} (f : α → Except String β) (l : List α)
    (a : α) (e : String) (hmem : a ∈ l) (hf : f a = .error e) :
    (mapExcept f l).isOk = false := by
  induction l with
  | nil => cases hmem
  | cons b t ih =>
    rw [mapExcept_cons]
    rcases List.mem_cons.mp hmem with h | h
    · subst h
      rw [hf]
      rfl
    · cases hb : f b with
      | error e' => rfl
      | ok x =>
        have hrec := ih h
        cases ht : mapExcept f t with
        | error e' => rfl
        | ok xs => rw [ht, except_isOk_ok] at hrec; cases hrec

/-- A fallible fold over a list containing an element on which the step
throws for every accumulator cannot succeed. -/
theorem foldExcept_isOk_false_of_mem {σ α : Type} (f : σ → α → Except String σ)
    (acc : σ) (l : List α) (a : α) (hmem : a ∈ l)
    (hf : ∀ s, (f s a).isOk = false) :
    (foldExcept f acc l).isOk = false := by
  induction l generalizing acc with
  | nil => cases hmem
  | cons b t ih =>
    rw [foldExcept_cons]
    rcases List.mem_cons.mp hmem with h | h
    · cases hb : f acc b with
      | error e => rfl
      | ok s' =>
        have hs := hf acc
        rw [h, hb, except_isOk_ok] at hs
        cases hs
    · cases hb : f acc b with
      | error e => rfl
      | ok s' =>
        rw [except_ok_bind]
        exact ih s' h

theorem except_bind_ok {α β : Type} {x : Except String α} {f : α → Except String β}
    {r : β} (h : (x >>= f) = .ok r) : ∃ a, x = .ok a ∧ f a = .ok r := by
  cases x with
  | error e => rw [except_error_bind] at h; cases h
  | ok a => exact ⟨a, rfl, by rwa [except_ok_bind] at h⟩

theorem except_isOk_exists {α : Type} {x : Except String α} (h : x.isOk = true) :
    ∃ a, x = .ok a := by
  cases x with
  | error e => rw [except_isOk_error] at h; cases h
  | ok a => exact ⟨a, rfl⟩

/- ### C1 -/

/-- C1 (counterexample): the claimed derivation of
`api_post_user.id.__update_profile` is `("POST", "/user/:id/update-profile")`,
but the code inserts no path separator in front of the `:id` parameter: the
`.id.` segment is consumed together with its dots, leaving `/user:id/…`. -/
theorem C1_counterexample :
    parseProcedureName "api_post_user.id.__update_profile" "api_" ≠
      ("POST", "/user/:id/update-profile") := by decide

/-- C1 (amended): route derivation is the pure function
`parseProcedureName` of the name and the configured prefix;
`api_get_hello__world` maps to `("GET", "/hello/world")` as claimed, while
`api_post_user.id.__update_profile` maps to
`("POST", "/user:id/update-profile")` — the dotted `.id.` segment becomes
`:id` with both dots consumed and no `/` inserted before it. -/
theorem C1_route_derivation :
    parseProcedureName "api_get_hello__world" "api_" = ("GET", "/hello/world") ∧
    parseProcedureName "api_post_user.id.__update_profile" "api_" =
      ("POST", "/user:id/update-profile") := by decide

/- ### C3 / C4: the executef/handler protocol mismatch -/

/-- The C3 failing input: a sentinel row
`{#RESULT#: true, error: true, status: 410, message: "gone"}`, no further
result sets, plus the trailing call-status element. -/
def c3Sentinel : Val :=
  .vobj [("#RESULT#", .vbool true), ("error", .vbool true), ("status", .vnum 410),
         ("message", .vstr "gone")]

def c3DbResults : Val := .varr [.varr [c3Sentinel], .vobj []]

/-- C3 (code bug, witness of the divergence): on the no-`schema` error
envelope the claim (and the spec) require status 410 with payload
`{error: true, success: false, message: "gone"}`, but `executef` returns the
bare failure object while the handler destructures its result as
`[results, resultMetadata]`; destructuring a plain object throws, so the
invocation fails instead of producing the 410 reply. -/
theorem C3_error_envelope_throws :
    invoke "api_post_gone" c3DbResults =
      .error "Error in handler for procedure api_post_gone: TypeError: object is not iterable" :=
  rfl

/-- The C4 failing input: one sentinel-less result set of rows plus the
trailing call-status element. -/
def c4DbResults : Val := .varr [.varr [.vobj [("a", .vnum 1)]], .vobj []]

/-- C4 (code bug, witness of the divergence): on a sentinel-less call the
claim (and the spec) require the result sets verbatim with status 200, but
`executef` evaluates `resultMetadata.error` on the `null` envelope and
throws, so the invocation fails; the handler's own sentinel-less branch
(`if (!resultMetadata) return results;`, line 174) is unreachable. -/
theorem C4_sentinelless_throws :
    invoke "api_get_rows" c4DbResults =
      .error "Error in handler for procedure api_get_rows: TypeError: Cannot read properties of null (reading 'error')" :=
  rfl

/- ### C5: missing ParameterBinding -/

/-- A procedure declaring one parameter whose metadata carries no `@param`
binding for it. -/
def c5Proc : Procedure := ⟨"api_get_thing", [], ["p_id"]⟩

def emptyReq : Req := ⟨[], [], [], [], .undefined, []⟩

/-- C5 (code bug, witness of the divergence): the claim (and the spec's
invariant) require a missing ParameterBinding to fail compilation at
startup, but compilation of such a procedure succeeds — no compile step
compares the declared parameters against the binding map — and the error is
raised only at request time by `Procedures.execute`'s argument
resolution. -/
theorem C5_missing_binding_deferred :
    (compileProcedure "api_" (fun _ => (none : Option (List String → Unit)))
        (fun _ => (none : Option Unit)) (fun _ => Except.ok ()) c5Proc).isOk = true ∧
    resolveProcedureArgs c5Proc emptyReq =
      .error "Parameter metadata not found for parameter: p_id in procedure: api_get_thing" :=
  ⟨rfl, rfl⟩

/- ### C10: custom-validations loader stops after the first file -/

/-- C10: with at least two module files, the registry is exactly the first
file's registrations — `return validations` inside the loop makes the result
independent of every later file (their factories are neither registered nor
self-tested). -/
theorem C10_first_file_only (m1 m2 : VModule) (rest : List VModule)
    (reg : List (String × VExport)) (h : processValidationModule [] m1 = .ok reg) :
    loadCustomValidations (m1 :: m2 :: rest) = .ok reg ∧
    loadCustomValidations (m1 :: m2 :: rest) = loadCustomValidations [m1] := by
  constructor
  · simp only [loadCustomValidations, h]
  · simp only [loadCustomValidations, h]

def c10Module1 : VModule := ⟨"goodmod", none, [("v1", ⟨true, true⟩)]⟩

/-- A later module file whose default factory fails the zod self-test: were
it ever processed, loading would abort. -/
def c10Module2 : VModule := ⟨"badmod", some ⟨true, false⟩, []⟩

theorem C10_first_file_only_witness :
    processValidationModule [] c10Module1 = .ok [("v1", ⟨true, true⟩)] ∧
    loadCustomValidations [c10Module1, c10Module2] = .ok [("v1", ⟨true, true⟩)] ∧
    loadCustomValidations [c10Module1, c10Module2] = loadCustomValidations [c10Module1] :=
  ⟨rfl, (C10_first_file_only c10Module1 c10Module2 [] [("v1", ⟨true, true⟩)] rfl).1,
    (C10_first_file_only c10Module1 c10Module2 [] [("v1", ⟨true, true⟩)] rfl).2⟩

/- ### The envelope-with-schema invocation path (shared by C2 and C9) -/

theorem truthy_getProp_vobj {m : Val} {k : String} (h : truthy (getProp m k) = true) :
    ∃ fs, m = .vobj fs := by
  cases m with
  | vobj fs => exact ⟨fs, rfl⟩
  | undefined => exact absurd h (by simp [getProp, truthy])
  | null => exact absurd h (by simp [getProp, truthy])
  | vbool b => exact absurd h (by simp [getProp, truthy])
  | vnum n => exact absurd h (by simp [getProp, truthy])
  | vstr s => exact absurd h (by simp [getProp, truthy])
  | varr xs => exact absurd h (by simp [getProp, truthy])

/-- The handler on an `[payload, envelope]` pair with a truthy envelope:
reply with `replyStatus` and either the failure object or the payload. -/
theorem handlerCore_pair (x meta : Val) (st : Int) (htm : truthy meta = true)
    (hstatus : replyStatus meta = .ok st) :
    handlerCore (.varr [x, meta]) =
      .ok (st, if truthy (getProp meta "error") then errObjOf meta else x) := by
  have h0 : ([x, meta].getD 0 .undefined) = x := rfl
  have h1 : ([x, meta].getD 1 .undefined) = meta := rfl
  simp only [handlerCore, destructurePair, except_ok_bind, h0, h1, htm]
  rw [if_neg (by simp)]
  rw [hstatus, except_ok_bind]
  by_cases herr : truthy (getProp meta "error") = true
  · rw [if_pos herr, if_pos herr]
  · rw [if_neg herr, if_neg herr]

/-- An invocation whose database response consists of a sentinel result set
(envelope row first), data result sets and the trailing call-status element,
where the envelope carries a string `schema`: the envelope is consumed, the
descriptors are applied positionally by `shapeResults`, and the handler
replies with `replyStatus` and either the failure object (truthy `error`) or
the shaped payload (single descriptor unwrapped, several kept as an ordered
sequence). -/
theorem invoke_schema_envelope (procName : String) (metaRow info : Val)
    (restRows sets prepared : List Val) (s : String) (st : Int)
    (hmarker : truthy (getProp metaRow resultMarkerKey) = true)
    (hschema : getProp metaRow "schema" = .vstr s)
    (hshape : shapeResults (.varr sets) ((splitOnChar ',' s.toList).map String.mk) 0 =
      .ok prepared)
    (hstatus : replyStatus metaRow = .ok st) :
    invoke procName (.varr ((.varr (metaRow :: restRows)) :: (sets ++ [info]))) =
      .ok (st,
        if truthy (getProp metaRow "error") then errObjOf metaRow
        else if prepared.length = 1 then prepared.headD .undefined else .varr prepared) := by
  obtain ⟨fs, hm⟩ := truthy_getProp_vobj hmarker
  subst hm
  have hmarker' : truthy (lookupField fs resultMarkerKey) = true := hmarker
  have hdrop : ((.varr (Val.vobj fs :: restRows)) :: (sets ++ [info])).dropLast =
      (.varr (Val.vobj fs :: restRows)) :: sets := by
    rw [show ((Val.varr (Val.vobj fs :: restRows)) :: (sets ++ [info])) =
        ((Val.varr (Val.vobj fs :: restRows)) :: sets) ++ [info] by simp]
    exact List.dropLast_concat
  have hdemux :
      executeDemux (.varr ((.varr (Val.vobj fs :: restRows)) :: (sets ++ [info]))) =
        (.varr sets, Val.vobj fs) := by
    simp only [executeDemux, hdrop, List.headD_cons, optIdx0, idx0, optProp, getProp,
      hmarker', if_true, List.tail_cons]
  have henv : envelopeSchema (Val.vobj fs) =
      .ok (some ((splitOnChar ',' s.toList).map String.mk)) := by
    simp only [envelopeSchema]
    try rw [hschema]
  have hshape' : executefShape (.varr sets) (Val.vobj fs) =
      (if prepared.length = 1 then
        Except.ok (.varr [prepared.headD .undefined, Val.vobj fs])
      else Except.ok (.varr [.varr prepared, Val.vobj fs])) := by
    simp only [executefShape, henv, except_ok_bind, hshape]
  have hcomp : executefModel
      (.varr ((.varr (Val.vobj fs :: restRows)) :: (sets ++ [info]))) =
      executefShape (.varr sets) (Val.vobj fs) := by
    rw [executefModel, hdemux]
  rw [invoke, hcomp, hshape']
  by_cases hlen : prepared.length = 1
  · rw [if_pos hlen, except_ok_bind,
      handlerCore_pair (prepared.headD .undefined) (Val.vobj fs) st rfl hstatus]
    by_cases herr : truthy (getProp (Val.vobj fs) "error") = true
    · simp [herr]
    · simp only [Bool.not_eq_true] at herr
      simp [herr, hlen]
  · rw [if_neg hlen, except_ok_bind,
      handlerCore_pair (.varr prepared) (Val.vobj fs) st rfl hstatus]
    by_cases herr : truthy (getProp (Val.vobj fs) "error") = true
    · simp [herr]
    · simp only [Bool.not_eq_true] at herr
      simp [herr, hlen]

/- ### C2 -/

/-- C2 (amended): for an envelope that carries a string `schema` field AND
whose `error` is falsy, the descriptors split on `,` are applied
positionally (`object` unwraps the result set's first row, anything else
keeps the result set), a single descriptor's value is returned unwrapped and
several are returned as an ordered sequence.  (When `error` is truthy the
handler discards the shaped payload and returns the failure object — see the
counterexample.) -/
theorem C2_schema_shaping (procName : String) (metaRow info : Val)
    (restRows sets prepared : List Val) (s : String) (st : Int)
    (hmarker : truthy (getProp metaRow resultMarkerKey) = true)
    (hschema : getProp metaRow "schema" = .vstr s)
    (herror : truthy (getProp metaRow "error") = false)
    (hshape : shapeResults (.varr sets) ((splitOnChar ',' s.toList).map String.mk) 0 =
      .ok prepared)
    (hstatus : replyStatus metaRow = .ok st) :
    invoke procName (.varr ((.varr (metaRow :: restRows)) :: (sets ++ [info]))) =
      .ok (st, if prepared.length = 1 then prepared.headD .undefined else .varr prepared) := by
  rw [invoke_schema_envelope procName metaRow info restRows sets prepared s st hmarker
    hschema hshape hstatus, herror]
  simp

def c2Sentinel : Val :=
  .vobj [("#RESULT#", .vbool true), ("error", .vbool false), ("schema", .vstr "object,array")]

def c2Sets : List Val :=
  [.varr [.vobj [("a", .vnum 1)]], .varr [.vobj [("b", .vnum 1)], .vobj [("b", .vnum 2)]]]

def c2SingleSentinel : Val :=
  .vobj [("#RESULT#", .vbool true), ("error", .vbool false), ("schema", .vstr "object")]

theorem C2_schema_shaping_witness :
    invoke "api_get_multi" (.varr ((.varr [c2Sentinel]) :: (c2Sets ++ [.vobj []]))) =
      .ok (200, .varr [.vobj [("a", .vnum 1)],
        .varr [.vobj [("b", .vnum 1)], .vobj [("b", .vnum 2)]]]) ∧
    invoke "api_get_single"
        (.varr ((.varr [c2SingleSentinel]) :: ([.varr [.vobj [("a", .vnum 1)]]] ++ [.vobj []]))) =
      .ok (200, .vobj [("a", .vnum 1)]) :=
  ⟨(C2_schema_shaping "api_get_multi" c2Sentinel (.vobj []) [] c2Sets
      [.vobj [("a", .vnum 1)], .varr [.vobj [("b", .vnum 1)], .vobj [("b", .vnum 2)]]]
      "object,array" 200 rfl rfl rfl rfl rfl).trans rfl,
   (C2_schema_shaping "api_get_single" c2SingleSentinel (.vobj []) []
      [.varr [.vobj [("a", .vnum 1)]]] [.vobj [("a", .vnum 1)]]
      "object" 200 rfl rfl rfl rfl rfl).trans rfl⟩

def c2ErrSentinel : Val :=
  .vobj [("#RESULT#", .vbool true), ("error", .vbool true), ("schema", .vstr "object"),
         ("message", .vstr "m")]

/-- C2 (counterexample): an envelope carrying `schema: "object"` but a truthy
`error` does not yield the unwrapped first row `{a: 1}` as the claim's
universal statement requires — the handler returns the
`{error, success, message}` failure object instead (with status 400). -/
theorem C2_counterexample :
    invoke "api_get_one"
        (.varr [.varr [c2ErrSentinel], .varr [.vobj [("a", .vnum 1)]], .vobj []]) =
      .ok (400, .vobj [("error", .vbool true), ("success", .vbool false),
        ("message", .vstr "m")]) ∧
    (Val.vobj [("error", .vbool true), ("success", .vbool false), ("message", .vstr "m")]) ≠
      .vobj [("a", .vnum 1)] :=
  ⟨rfl, by simp⟩

/- ### C9 -/

/-- The handler on a bare result-set array (what `executef` returns for a
no-`schema`, falsy-`error` envelope): the destructuring takes the first two
result sets; the second one, when present, is an array — truthy, with no
`status` or `error` property — so the reply status is 200 in every case and
the payload is the first destructured element. -/
theorem handlerCore_arr (sets : List Val)
    (hsets : ∀ v ∈ sets, ∃ l, v = Val.varr l) :
    handlerCore (.varr sets) = .ok (200, sets.getD 0 .undefined) := by
  have hd : destructurePair (.varr sets) =
      .ok (sets.getD 0 .undefined, sets.getD 1 .undefined) := rfl
  simp only [handlerCore, hd, except_ok_bind]
  by_cases hm2 : truthy (sets.getD 1 .undefined) = true
  · rw [if_neg (not_not_intro hm2)]
    cases sets with
    | nil => exact absurd hm2 (by decide)
    | cons a t =>
      cases t with
      | nil =>
        exact absurd hm2
          (by rw [show [a].getD 1 Val.undefined = Val.undefined from rfl]; decide)
      | cons b t2 =>
        have hb : (a :: b :: t2).getD 1 Val.undefined = b := rfl
        obtain ⟨l2, hl2⟩ := hsets b (by simp)
        rw [hb, hl2]
        rw [show replyStatus (Val.varr l2) = Except.ok 200 from rfl, except_ok_bind]
        rw [if_neg (by simp [getProp, truthy])]
  · rw [if_pos hm2]

/-- An invocation whose database response carries a sentinel envelope with no
`schema` field and a falsy `error`: `executef` returns the bare result-set
array (fastify-module.ts 574-575) and the handler destructures it without
throwing, replying 200 with its first element. -/
theorem invoke_noschema_ok (procName : String) (metaRow info : Val)
    (restRows sets : List Val)
    (hmarker : truthy (getProp metaRow resultMarkerKey) = true)
    (hschema : getProp metaRow "schema" = .undefined ∨ getProp metaRow "schema" = .null)
    (herror : truthy (getProp metaRow "error") = false)
    (hsets : ∀ v ∈ sets, ∃ l, v = Val.varr l) :
    invoke procName (.varr ((.varr (metaRow :: restRows)) :: (sets ++ [info]))) =
      .ok (200, sets.getD 0 .undefined) := by
  obtain ⟨fs, hm⟩ := truthy_getProp_vobj hmarker
  subst hm
  have hmarker2 : truthy (lookupField fs resultMarkerKey) = true := hmarker
  have hdrop : ((.varr (Val.vobj fs :: restRows)) :: (sets ++ [info])).dropLast =
      (.varr (Val.vobj fs :: restRows)) :: sets := by
    rw [show ((Val.varr (Val.vobj fs :: restRows)) :: (sets ++ [info])) =
        ((Val.varr (Val.vobj fs :: restRows)) :: sets) ++ [info] by simp]
    exact List.dropLast_concat
  have hdemux :
      executeDemux (.varr ((.varr (Val.vobj fs :: restRows)) :: (sets ++ [info]))) =
        (.varr sets, Val.vobj fs) := by
    simp only [executeDemux, hdrop, List.headD_cons, optIdx0, idx0, optProp, getProp,
      hmarker2, if_true, List.tail_cons]
  have henv : envelopeSchema (Val.vobj fs) = .ok none := by
    simp only [envelopeSchema]
    rcases hschema with h | h <;> rw [h]
  have hshape : executefShape (.varr sets) (Val.vobj fs) = .ok (.varr sets) := by
    simp only [executefShape, henv, except_ok_bind]
    rw [if_neg (by simp [herror])]
  have hcomp : executefModel
      (.varr ((.varr (Val.vobj fs :: restRows)) :: (sets ++ [info]))) =
      executefShape (.varr sets) (Val.vobj fs) := by
    rw [executefModel, hdemux]
  rw [invoke, hcomp, hshape, except_ok_bind, handlerCore_arr sets hsets]

/-- C9 (amended): an explicit but falsy `status` (here `0`) is never honoured
— line 178 tests `status` for truthiness, not presence.  With a `schema` on
the envelope the reply status falls back to 400 when `error` is truthy and
200 otherwise; with no `schema` and a falsy `error` the handler replies 200;
in both cases the status is never the falsy value.  The one remaining
region — no `schema` and truthy `error` — never reaches the status line at
all: the invocation throws (see the counterexample and C3). -/
theorem C9_falsy_status (procName : String) (metaRow info : Val)
    (restRows sets prepared : List Val) (s : String)
    (hmarker : truthy (getProp metaRow resultMarkerKey) = true)
    (hstatus0 : getProp metaRow "status" = .vnum 0) :
    ((getProp metaRow "schema" = .vstr s) →
     (shapeResults (.varr sets) ((splitOnChar ',' s.toList).map String.mk) 0 =
       .ok prepared) →
      invoke procName (.varr ((.varr (metaRow :: restRows)) :: (sets ++ [info]))) =
        .ok ((if truthy (getProp metaRow "error") then 400 else 200),
          if truthy (getProp metaRow "error") then errObjOf metaRow
          else if prepared.length = 1 then prepared.headD .undefined else .varr prepared)) ∧
    ((getProp metaRow "schema" = .undefined ∨ getProp metaRow "schema" = .null) →
     truthy (getProp metaRow "error") = false →
     (∀ v ∈ sets, ∃ l, v = Val.varr l) →
      invoke procName (.varr ((.varr (metaRow :: restRows)) :: (sets ++ [info]))) =
        .ok (200, sets.getD 0 .undefined)) ∧
    (if truthy (getProp metaRow "error") then (400 : Int) else 200) ≠ 0 := by
  refine ⟨?_, ?_, ?_⟩
  · intro hschema hshape
    have hst : replyStatus metaRow =
        .ok (if truthy (getProp metaRow "error") then 400 else 200) := by
      simp [replyStatus, hstatus0, truthy]
    exact invoke_schema_envelope procName metaRow info restRows sets prepared s _
      hmarker hschema hshape hst
  · intro hschema herror hsets
    exact invoke_noschema_ok procName metaRow info restRows sets hmarker hschema
      herror hsets
  · by_cases herr : truthy (getProp metaRow "error") = true
    · rw [if_pos herr]; decide
    · rw [if_neg herr]; decide

def c9Sentinel : Val :=
  .vobj [("#RESULT#", .vbool true), ("error", .vbool true), ("status", .vnum 0),
         ("schema", .vstr "array"), ("message", .vstr "m")]

def c9FalsyOkSentinel : Val :=
  .vobj [("#RESULT#", .vbool true), ("error", .vbool false), ("status", .vnum 0)]

theorem C9_falsy_status_witness :
    invoke "api_get_zero"
        (.varr ((.varr [c9Sentinel]) :: ([.varr [.vobj [("a", .vnum 1)]]] ++ [.vobj []]))) =
      .ok (400, .vobj [("error", .vbool true), ("success", .vbool false),
        ("message", .vstr "m")]) ∧
    invoke "api_get_zero_ok"
        (.varr ((.varr [c9FalsyOkSentinel]) ::
          ([.varr [.vobj [("a", .vnum 1)]]] ++ [.vobj []]))) =
      .ok (200, .varr [.vobj [("a", .vnum 1)]]) :=
  ⟨((C9_falsy_status "api_get_zero" c9Sentinel (.vobj []) []
      [.varr [.vobj [("a", .vnum 1)]]] [.varr [.vobj [("a", .vnum 1)]]]
      "array" rfl rfl).1 rfl rfl).trans rfl,
   ((C9_falsy_status "api_get_zero_ok" c9FalsyOkSentinel (.vobj []) []
      [.varr [.vobj [("a", .vnum 1)]]] [] "" rfl rfl).2.1 (Or.inl rfl) rfl
      (by
        intro v hv
        rw [List.mem_singleton] at hv
        exact ⟨[.vobj [("a", .vnum 1)]], hv⟩)).trans rfl⟩

def c9NoSchemaSentinel : Val :=
  .vobj [("#RESULT#", .vbool true), ("error", .vbool true), ("status", .vnum 0),
         ("message", .vstr "m")]

/-- C9 (counterexample): for an envelope with a falsy explicit `status` and
no `schema`, the claim as stated promises a 400 reply (`error` is truthy) —
but the composed handler never reaches the status line: `executef` returns
the bare failure object, destructuring it throws, and the invocation
fails. -/
theorem C9_counterexample :
    invoke "api_get_zero_noschema" (.varr [.varr [c9NoSchemaSentinel], .vobj []]) =
      .error "Error in handler for procedure api_get_zero_noschema: TypeError: object is not iterable" :=
  rfl

/- ### C6: guard/hook compile-time failures -/

theorem except_bind_isOk_false_left {α β : Type} {x : Except String α}
    {f : α → Except String β} (h : x.isOk = false) : (x >>= f).isOk = false := by
  cases x with
  | error e => rfl
  | ok a => rw [except_isOk_ok] at h; cases h

/-- A `@hooks` tag whose phase is outside the recognized set makes its loop
iteration fail whatever has been accumulated. -/
theorem processHookTag_bad_phase {φ : Type} (pn : String) (hk : String → Option φ)
    (t : Tag) (h : allowedHookTypes.contains t.name = false)
    (acc : List (String × List φ)) :
    (processHookTag pn hk acc t).isOk = false := by
  simp only [processHookTag]
  split
  · rfl
  · split
    · rfl
    · split
      · rfl
      · next hcon =>
        exfalso
        rw [not_not, h] at hcon
        cases hcon

/-- A `@hooks` tag referencing a function missing from the registry makes its
loop iteration fail whatever has been accumulated. -/
theorem processHookTag_missing_fn {φ : Type} (pn : String) (hk : String → Option φ)
    (t : Tag) (fn : String) (hfn : fn ∈ splitTrim t.description) (hnone : hk fn = none)
    (acc : List (String × List φ)) :
    (processHookTag pn hk acc t).isOk = false := by
  simp only [processHookTag]
  split
  · rfl
  · split
    · rfl
    · split
      · rfl
      · apply except_bind_isOk_false_left
        apply mapExcept_isOk_false_of_mem _ _ fn
          ("Hook function '" ++ fn ++ "' not found in hooks module for procedure " ++ pn) hfn
        rw [hnone]

/-- A `@hooks` tag whose phase is already accumulated makes its loop
iteration fail. -/
theorem processHookTag_dup {φ : Type} (pn : String) (hk : String → Option φ)
    (t : Tag) (acc : List (String × List φ))
    (h : keyMem acc t.name = true) :
    (processHookTag pn hk acc t).isOk = false := by
  simp only [processHookTag, h]
  split
  · rfl
  · rfl

/-- A successful loop iteration appends its phase to the accumulated keys. -/
theorem processHookTag_ok_keys {φ : Type} {pn : String} {hk : String → Option φ}
    {t : Tag} {acc acc' : List (String × List φ)}
    (h : processHookTag pn hk acc t = .ok acc') :
    keyMem acc' t.name = true ∧
    ∀ k, keyMem acc k = true → keyMem acc' k = true := by
  simp only [processHookTag] at h
  split at h
  · cases h
  · split at h
    · cases h
    · split at h
      · cases h
      · cases hm : mapExcept (fun fnName =>
            match hk fnName with
            | none => Except.error ("Hook function '" ++ fnName ++
                "' not found in hooks module for procedure " ++ pn)
            | some f => Except.ok f) (splitTrim t.description) with
        | error e => rw [hm, except_error_bind] at h; cases h
        | ok fns =>
          rw [hm, except_ok_bind] at h
          cases h
          constructor
          · simp [keyMem_append, keyMem]
          · intro k hk'
            simp [keyMem_append, hk']

/-- A successful fold of the hooks loop preserves accumulated phase keys. -/
theorem foldHooks_keys_mono {φ : Type} {pn : String} {hk : String → Option φ}
    (l : List Tag) (acc r : List (String × List φ))
    (h : foldExcept (processHookTag pn hk) acc l = .ok r) :
    ∀ k, keyMem acc k = true → keyMem r k = true := by
  induction l generalizing acc with
  | nil =>
    cases h
    intro k hk'
    exact hk'
  | cons b t ih =>
    rw [foldExcept_cons] at h
    obtain ⟨acc', hstep, hrest⟩ := except_bind_ok h
    intro k hk'
    exact ih acc' hrest k ((processHookTag_ok_keys hstep).2 k hk')

/-- Splitting the filtered hooks-tag list around two hooks tags. -/
theorem filter_hooks_split (m1 m2 m3 : List Tag) (t1 t2 : Tag)
    (h1 : t1.tag = "hooks") (h2 : t2.tag = "hooks") :
    (m1 ++ t1 :: (m2 ++ t2 :: m3)).filter (fun t => t.tag == "hooks") =
      m1.filter (fun t => t.tag == "hooks") ++ t1 ::
        (m2.filter (fun t => t.tag == "hooks") ++ t2 ::
          m3.filter (fun t => t.tag == "hooks")) := by
  simp [List.filter_append, List.filter_cons, h1, h2]

/-- Two `@hooks` tags with the same phase in one procedure's metadata make
the hooks pass fail. -/
theorem processRouteHooks_dup {φ : Type} (pn : String) (hk : String → Option φ)
    (m1 m2 m3 : List Tag) (t1 t2 : Tag)
    (h1 : t1.tag = "hooks") (h2 : t2.tag = "hooks") (hn : t1.name = t2.name) :
    (processRouteHooks pn (m1 ++ t1 :: (m2 ++ t2 :: m3)) hk).isOk = false := by
  cases hres : processRouteHooks pn (m1 ++ t1 :: (m2 ++ t2 :: m3)) hk with
  | error e => rfl
  | ok r =>
    exfalso
    rw [processRouteHooks, filter_hooks_split m1 m2 m3 t1 t2 h1 h2] at hres
    rw [foldExcept_append] at hres
    obtain ⟨acc1, hA, hres⟩ := except_bind_ok hres
    rw [foldExcept_cons] at hres
    obtain ⟨acc2, ht1, hres⟩ := except_bind_ok hres
    rw [foldExcept_append] at hres
    obtain ⟨acc3, hB, hres⟩ := except_bind_ok hres
    rw [foldExcept_cons] at hres
    obtain ⟨acc4, ht2, _⟩ := except_bind_ok hres
    have hmem2 : keyMem acc3 t2.name = true := by
      have hmem1 := (processHookTag_ok_keys ht1).1
      rw [hn] at hmem1
      exact foldHooks_keys_mono _ acc2 acc3 hB t2.name hmem1
    have hbad := processHookTag_dup pn hk t2 acc3 hmem2
    rw [ht2, except_isOk_ok] at hbad
    cases hbad

/-- A `@guard` tag naming a guard absent from the guard map makes the guards
pass fail. -/
theorem generateGuards_missing {γ : Type} (pn : String) (metadata : List Tag)
    (gm : String → Option (List String → γ)) (t : Tag)
    (hmem : t ∈ metadata) (htag : t.tag = "guard") (hnone : gm t.name = none) :
    (generateGuards pn metadata gm).isOk = false := by
  rw [generateGuards]
  apply mapExcept_isOk_false_of_mem _ _ t
    ("Guard not found: " ++ t.name ++ " in procedure: " ++ pn)
  · exact List.mem_filter.mpr ⟨hmem, by simp [htag]⟩
  · simp [hnone]

/-- A successfully compiled procedure passed the hooks, schema and guards
passes. -/
theorem compileProcedure_ok_parts {φ γ σ : Type} {pfx : String}
    {guardMap : String → Option (List String → γ)} {hooks : String → Option φ}
    {parseFn : String → Except String σ} {proc : Procedure} {r : RouteSpec φ γ σ}
    (h : compileProcedure pfx guardMap hooks parseFn proc = .ok r) :
    (processRouteHooks proc.name proc.metadata hooks).isOk = true ∧
    (generateZodSchema proc.name proc.metadata parseFn).isOk = true ∧
    (generateGuards proc.name proc.metadata guardMap).isOk = true := by
  rw [compileProcedure] at h
  cases hin : compileProcedureInner pfx guardMap hooks parseFn proc with
  | error e => rw [hin] at h; cases h
  | ok r' =>
    rw [compileProcedureInner] at hin
    obtain ⟨rh, hh, hin⟩ := except_bind_ok hin
    obtain ⟨sch, hs, hin⟩ := except_bind_ok hin
    obtain ⟨gs, hg, _⟩ := except_bind_ok hin
    refine ⟨?_, ?_, ?_⟩
    · rw [hh]; rfl
    · rw [hs]; rfl
    · rw [hg]; rfl

/-- Every compile-time error message of the per-procedure loop names the
procedure (the surrounding catch prefixes it). -/
theorem compileProcedure_error_names {φ γ σ : Type} {pfx : String}
    {guardMap : String → Option (List String → γ)} {hooks : String → Option φ}
    {parseFn : String → Except String σ} {proc : Procedure} {e : String}
    (h : compileProcedure pfx guardMap hooks parseFn proc = .error e) :
    ∃ a b, e = a ++ proc.name ++ b := by
  rw [compileProcedure] at h
  cases hin : compileProcedureInner pfx guardMap hooks parseFn proc with
  | ok r => rw [hin] at h; cases h
  | error e' =>
    rw [hin] at h
    injection h with h'
    refine ⟨"Error in procedure ", ": " ++ e', ?_⟩
    rw [← h']
    simp [String.append_assoc]

/-- C6: compilation of a procedure fails when a `@guard` tag names a guard
absent from the guard map, when a `@hooks` tag names a phase outside the
recognized lifecycle set, when two `@hooks` tags declare the same phase, or
when a `@hooks` tag references a function missing from the hook registry;
and every compile error message names the procedure. -/
theorem C6_compile_failures {φ γ σ : Type} (pfx : String)
    (guardMap : String → Option (List String → γ)) (hooks : String → Option φ)
    (parseFn : String → Except String σ) (proc : Procedure) :
    ((∃ t, t ∈ proc.metadata ∧ t.tag = "guard" ∧ guardMap t.name = none) →
      (compileProcedure pfx guardMap hooks parseFn proc).isOk = false) ∧
    ((∃ t, t ∈ proc.metadata ∧ t.tag = "hooks" ∧
        allowedHookTypes.contains t.name = false) →
      (compileProcedure pfx guardMap hooks parseFn proc).isOk = false) ∧
    ((∃ m1 t1 m2 t2 m3, proc.metadata = m1 ++ t1 :: (m2 ++ t2 :: m3) ∧
        Tag.tag t1 = "hooks" ∧ Tag.tag t2 = "hooks" ∧ Tag.name t1 = Tag.name t2) →
      (compileProcedure pfx guardMap hooks parseFn proc).isOk = false) ∧
    ((∃ t fn, t ∈ proc.metadata ∧ t.tag = "hooks" ∧ fn ∈ splitTrim t.description ∧
        hooks fn = none) →
      (compileProcedure pfx guardMap hooks parseFn proc).isOk = false) ∧
    (∀ e, compileProcedure pfx guardMap hooks parseFn proc = .error e →
      ∃ a b, e = a ++ proc.name ++ b) := by
  refine ⟨?_, ?_, ?_, ?_, fun e he => compileProcedure_error_names he⟩
  · rintro ⟨t, hmem, htag, hnone⟩
    cases hres : compileProcedure pfx guardMap hooks parseFn proc with
    | error e => rfl
    | ok r =>
      exfalso
      have hbad := generateGuards_missing proc.name proc.metadata guardMap t hmem htag hnone
      rw [(compileProcedure_ok_parts hres).2.2] at hbad
      cases hbad
  · rintro ⟨t, hmem, htag, hntype⟩
    cases hres : compileProcedure pfx guardMap hooks parseFn proc with
    | error e => rfl
    | ok r =>
      exfalso
      have hbad : (processRouteHooks proc.name proc.metadata hooks).isOk = false := by
        rw [processRouteHooks]
        exact foldExcept_isOk_false_of_mem _ [] _ t
          (List.mem_filter.mpr ⟨hmem, by simp [htag]⟩)
          (processHookTag_bad_phase proc.name hooks t hntype)
      rw [(compileProcedure_ok_parts hres).1] at hbad
      cases hbad
  · rintro ⟨m1, t1, m2, t2, m3, hmeta, h1, h2, hn⟩
    cases hres : compileProcedure pfx guardMap hooks parseFn proc with
    | error e => rfl
    | ok r =>
      exfalso
      have hbad := processRouteHooks_dup proc.name hooks m1 m2 m3 t1 t2 h1 h2 hn
      rw [← hmeta] at hbad
      rw [(compileProcedure_ok_parts hres).1] at hbad
      cases hbad
  · rintro ⟨t, fn, hmem, htag, hfn, hnone⟩
    cases hres : compileProcedure pfx guardMap hooks parseFn proc with
    | error e => rfl
    | ok r =>
      exfalso
      have hbad : (processRouteHooks proc.name proc.metadata hooks).isOk = false := by
        rw [processRouteHooks]
        exact foldExcept_isOk_false_of_mem _ [] _ t
          (List.mem_filter.mpr ⟨hmem, by simp [htag]⟩)
          (processHookTag_missing_fn proc.name hooks t fn hfn hnone)
      rw [(compileProcedure_ok_parts hres).1] at hbad
      cases hbad

def c6GuardProc : Procedure := ⟨"api_get_g", [⟨"guard", "", "nope", ""⟩], []⟩

def c6PhaseProc : Procedure := ⟨"api_get_h", [⟨"hooks", "", "weird", "fnA"⟩], []⟩

def c6DupProc : Procedure :=
  ⟨"api_get_d", [⟨"hooks", "", "onSend", "fnA"⟩, ⟨"hooks", "", "onSend", "fnB"⟩], []⟩

def c6FnProc : Procedure := ⟨"api_get_f", [⟨"hooks", "", "onSend", "missingFn"⟩], []⟩

theorem C6_compile_failures_witness :
    (compileProcedure "api_" (fun _ => (none : Option (List String → Unit)))
      (fun _ => (some () : Option Unit)) (fun _ => Except.ok ()) c6GuardProc).isOk = false ∧
    (compileProcedure "api_" (fun _ => (none : Option (List String → Unit)))
      (fun _ => (some () : Option Unit)) (fun _ => Except.ok ()) c6PhaseProc).isOk = false ∧
    (compileProcedure "api_" (fun _ => (none : Option (List String → Unit)))
      (fun _ => (some () : Option Unit)) (fun _ => Except.ok ()) c6DupProc).isOk = false ∧
    (compileProcedure "api_" (fun _ => (none : Option (List String → Unit)))
      (fun _ => (none : Option Unit)) (fun _ => Except.ok ()) c6FnProc).isOk = false :=
  ⟨(C6_compile_failures "api_" (fun _ => none) (fun _ => some ()) (fun _ => Except.ok ())
      c6GuardProc).1 ⟨⟨"guard", "", "nope", ""⟩, by decide, rfl, rfl⟩,
   (C6_compile_failures "api_" (fun _ => none) (fun _ => some ()) (fun _ => Except.ok ())
      c6PhaseProc).2.1 ⟨⟨"hooks", "", "weird", "fnA"⟩, by decide, rfl, by decide⟩,
   (C6_compile_failures "api_" (fun _ => none) (fun _ => some ()) (fun _ => Except.ok ())
      c6DupProc).2.2.1 ⟨[], ⟨"hooks", "", "onSend", "fnA"⟩, [], ⟨"hooks", "", "onSend", "fnB"⟩,
      [], rfl, rfl, rfl, rfl⟩,
   (C6_compile_failures "api_" (fun _ => none) (fun _ => none) (fun _ => Except.ok ())
      c6FnProc).2.2.2.1 ⟨⟨"hooks", "", "onSend", "missingFn"⟩, "missingFn", by decide, rfl,
      by decide, rfl⟩⟩

/- ### C7: positional, normalized argument resolution -/

/-- Every binding stored by a successful `getParamMetadata` pass has an
allowed source location (the step validated it). -/
theorem getParamStep_allowed {acc acc' : List (String × ParamMeta)} {tag : Tag}
    (h : getParamStep acc tag = .ok acc')
    (hacc : ∀ e ∈ acc, allowedGetFromValues.contains e.2.getFrom = true) :
    ∀ e ∈ acc', allowedGetFromValues.contains e.2.getFrom = true := by
  rw [getParamStep] at h
  split at h
  · split at h
    · next hallow =>
      injection h with h
      subst h
      intro e he
      rcases List.mem_cons.mp he with he | he
      · subst he
        exact hallow
      · exact hacc e he
    · cases h
  · injection h with h
    subst h
    exact hacc

theorem getParamMetadata_allowed_aux (metadata : List Tag)
    (acc pm : List (String × ParamMeta))
    (hacc : ∀ e ∈ acc, allowedGetFromValues.contains e.2.getFrom = true)
    (h : foldExcept getParamStep acc metadata = .ok pm) :
    ∀ e ∈ pm, allowedGetFromValues.contains e.2.getFrom = true := by
  induction metadata generalizing acc with
  | nil => cases h; exact hacc
  | cons tag rest ih =>
    rw [foldExcept_cons] at h
    obtain ⟨acc', hstep, hrest⟩ := except_bind_ok h
    exact ih acc' (getParamStep_allowed hstep hacc) hrest

theorem getParamMetadata_allowed {metadata : List Tag} {pm : List (String × ParamMeta)}
    (h : getParamMetadata metadata = .ok pm) :
    ∀ e ∈ pm, allowedGetFromValues.contains e.2.getFrom = true :=
  getParamMetadata_allowed_aux metadata [] pm (by intro e he; cases he) h

theorem pmLookup_mem {pm : List (String × ParamMeta)} {key : String} {m : ParamMeta}
    (h : pmLookup pm key = some m) : ∃ k, (k, m) ∈ pm := by
  induction pm with
  | nil => cases h
  | cons a t ih =>
    cases a with
    | mk k v =>
      rw [pmLookup] at h
      split at h
      · injection h with h
        subst h
        exact ⟨k, List.mem_cons_self _ _⟩
      · obtain ⟨k', hk'⟩ := ih h
        exact ⟨k', List.mem_cons_of_mem _ hk'⟩

/-- The value a binding extracts from the request, per its source location
(the switch of `Procedures.execute`, fastify-module.ts 511-533). -/
def bindingValue (req : Req) (m : ParamMeta) : Val :=
  match m.getFrom with
  | "querystring" => lookupField req.query m.aliasName
  | "params" => lookupField req.pathParams m.aliasName
  | "body" => lookupField req.body m.aliasName
  | "headers" => lookupField req.headers m.aliasName
  | "user" => optProp req.user m.aliasName
  | "request" => lookupField req.requestData m.aliasName
  | _ => .undefined

theorem resolveArgs_mapExcept (procName : String) (req : Req)
    (pm : List (String × ParamMeta))
    (hallowed : ∀ e ∈ pm, allowedGetFromValues.contains e.2.getFrom = true)
    (ps : List String)
    (h2 : ∀ p ∈ ps, (pmLookup pm p).isSome = true) :
    mapExcept (fun param =>
      match pmLookup pm param with
      | none =>
        Except.error ("Parameter metadata not found for parameter: " ++ param ++
          " in procedure: " ++ procName)
      | some paramMeta => do
        let value ← (match paramMeta.getFrom with
          | "querystring" => Except.ok (lookupField req.query paramMeta.aliasName)
          | "params" => Except.ok (lookupField req.pathParams paramMeta.aliasName)
          | "body" => Except.ok (lookupField req.body paramMeta.aliasName)
          | "headers" => Except.ok (lookupField req.headers paramMeta.aliasName)
          | "user" => Except.ok (optProp req.user paramMeta.aliasName)
          | "request" => Except.ok (lookupField req.requestData paramMeta.aliasName)
          | other =>
            Except.error ("Unknown getFrom value: " ++ other ++ " for parameter: " ++
              param ++ " in procedure: " ++ procName))
        Except.ok (normalizeArg value)) ps =
    .ok (ps.map (fun p =>
      normalizeArg (bindingValue req ((pmLookup pm p).getD ⟨"", "", "", ""⟩)))) := by
  induction ps with
  | nil => rfl
  | cons p pt ih =>
    have hp := h2 p (List.mem_cons_self p pt)
    have hrest := ih (fun q hq => h2 q (List.mem_cons_of_mem _ hq))
    cases hlk : pmLookup pm p with
    | none => rw [hlk] at hp; cases hp
    | some m =>
      obtain ⟨k', hk'⟩ := pmLookup_mem hlk
      have hall := hallowed (k', m) hk'
      have hmem : m.getFrom ∈ allowedGetFromValues := List.mem_of_elem_eq_true hall
      simp only [allowedGetFromValues, List.mem_cons, List.not_mem_nil, or_false] at hmem
      simp only [mapExcept_cons, hlk, hrest, except_ok_bind, List.map_cons]
      rcases hmem with hc | hc | hc | hc | hc | hc <;>
        simp [hc, bindingValue, except_ok_bind, hlk]

/-- C7: when every declared parameter has a binding, `execute`'s argument
resolution succeeds and yields exactly the declared parameters, in catalog
order, each extracted from the request section its binding selects and then
normalized (`undefined`/`null` to the null argument, arrays/objects to their
JSON text, scalars unchanged — the content of `normalizeArg`). -/
theorem C7_positional_normalized_args (proc : Procedure) (req : Req)
    (pm : List (String × ParamMeta))
    (h1 : getParamMetadata proc.metadata = .ok pm)
    (h2 : ∀ p ∈ proc.parameters, (pmLookup pm p).isSome = true) :
    resolveProcedureArgs proc req =
      .ok (proc.parameters.map (fun p =>
        normalizeArg (bindingValue req ((pmLookup pm p).getD ⟨"", "", "", ""⟩)))) := by
  rw [resolveProcedureArgs, h1, except_ok_bind]
  exact resolveArgs_mapExcept proc.name req pm (getParamMetadata_allowed h1)
    proc.parameters h2

def c7Proc : Procedure :=
  ⟨"api_post_user",
   [⟨"param", "body", "p_profile", ""⟩,
    ⟨"param", "querystring", "p_missing", ""⟩,
    ⟨"param", "querystring", "p_limit", ""⟩],
   ["p_profile", "p_missing", "p_limit"]⟩

def c7Req : Req :=
  ⟨[("p_limit", .vnum 5)], [], [("p_profile", .vobj [("x", .vnum 1)])], [], .undefined, []⟩

def c7pm : List (String × ParamMeta) :=
  [("p_limit", ⟨"p_limit", "p_limit", "querystring", ""⟩),
   ("p_missing", ⟨"p_missing", "p_missing", "querystring", ""⟩),
   ("p_profile", ⟨"p_profile", "p_profile", "body", ""⟩)]

theorem C7_positional_normalized_args_witness :
    resolveProcedureArgs c7Proc c7Req =
      .ok [.vstr "\x7b\"x\":1\x7d", .null, .vnum 5] := by
  rw [C7_positional_normalized_args c7Proc c7Req c7pm rfl (by decide)]
  rfl

/- ### C8: schema-expression failures are compile-time and name the parameter -/

/-- The schema pass fails on the first `param` tag whose expression fails to
evaluate, with a message naming the parameter and the procedure. -/
theorem generateZodSchema_parse_error {σ : Type} (pn : String)
    (parseFn : String → Except String σ) (pre post : List Tag) (t : Tag) (msg : String)
    (sch0 : RouteSchema σ)
    (htag : t.tag = "param")
    (hfail : parseFn t.description = .error msg)
    (hpre : foldExcept (addSchemaPart pn parseFn) emptyRouteSchema pre = .ok sch0) :
    generateZodSchema pn (pre ++ t :: post) parseFn =
      .error ("Error parsing schema for parameter " ++ (resolveNameAlias t.name).1 ++
        " in procedure " ++ pn ++ ": " ++ msg) := by
  rw [generateZodSchema, foldExcept_append, hpre, except_ok_bind, foldExcept_cons]
  have hstep : addSchemaPart pn parseFn sch0 t =
      .error ("Error parsing schema for parameter " ++ (resolveNameAlias t.name).1 ++
        " in procedure " ++ pn ++ ": " ++ msg) := by
    simp [addSchemaPart, htag, hfail]
  rw [hstep, except_error_bind]

/-- C8: a `param` tag whose schema expression fails to evaluate (a malformed
expression or a reference to an unregistered custom validator both surface
as an evaluation error of the sandboxed expression) makes `compileProcedure`
— run during startup route registration, before any request — fail with a
message naming the offending parameter and the owning procedure. -/
theorem C8_schema_parse_failure {φ γ σ : Type} (pfx : String)
    (guardMap : String → Option (List String → γ)) (hooks : String → Option φ)
    (parseFn : String → Except String σ) (proc : Procedure)
    (pre post : List Tag) (t : Tag) (msg : String) (sch0 : RouteSchema σ)
    (rh : List (String × List φ))
    (hsplit : proc.metadata = pre ++ t :: post)
    (htag : t.tag = "param")
    (hfail : parseFn t.description = .error msg)
    (hpre : foldExcept (addSchemaPart proc.name parseFn) emptyRouteSchema pre = .ok sch0)
    (hhooks : processRouteHooks proc.name proc.metadata hooks = .ok rh) :
    compileProcedure pfx guardMap hooks parseFn proc =
      .error ("Error in procedure " ++ proc.name ++ ": " ++
        ("Error parsing schema for parameter " ++ (resolveNameAlias t.name).1 ++
         " in procedure " ++ proc.name ++ ": " ++ msg)) := by
  have hschema := generateZodSchema_parse_error proc.name parseFn pre post t msg sch0
    htag hfail hpre
  rw [← hsplit] at hschema
  rw [compileProcedure, compileProcedureInner, hhooks, except_ok_bind, hschema,
    except_error_bind]

def c8Proc : Procedure :=
  ⟨"api_get_v", [⟨"param", "querystring", "p_email", "c.email()"⟩], ["p_email"]⟩

/-- The sandbox evaluator observed on the expression `c.email()` when no
custom validator `email` is registered: `c.email` is `undefined` and the
call throws. -/
def c8ParseFn : String → Except String Unit := fun _ => .error "c.email is not a function"

theorem C8_schema_parse_failure_witness :
    compileProcedure "api_" (fun _ => (none : Option (List String → Unit)))
        (fun _ => (none : Option Unit)) c8ParseFn c8Proc =
      .error "Error in procedure api_get_v: Error parsing schema for parameter p_email in procedure api_get_v: c.email is not a function" :=
  (C8_schema_parse_failure "api_" (fun _ => none) (fun _ => none) c8ParseFn c8Proc
    [] [] ⟨"param", "querystring", "p_email", "c.email()"⟩ "c.email is not a function"
    emptyRouteSchema [] rfl rfl rfl rfl rfl).trans rfl
